import Mathlib

/-!
Verification of the map_story extraction / geocoding core.

The definitions below are a shallow embedding of:
  * `src/src/utils/markdownParser.js`  (extractField, extractSection, parseMarkdown)
  * `src/src/components/StoryMap.jsx`  (the geocoding loop in handleGenerate,
    lines 186-208: location-name normalization, resolution, retry, merge)
  * the geocoding resolver `geocodeCity` (in-memory Map + localStorage caches,
    Nominatim fetch).

Modelling conventions:
  * JS strings are modelled as Lean `String` / `List Char`, i.e. sequences of
    Unicode scalar values.  The one place where JS UTF-16 surrogate behaviour
    could differ (a character class of emoji in a non-unicode regex) is
    modelled at code-point granularity; no claim depends on the difference.
  * JS numbers produced by `parseFloat` are modelled exactly as signed decimal
    rationals (`JSNum.fin num den`, value num/den) plus NaN and infinities,
    idealizing IEEE-754 rounding; only finiteness and magnitude comparisons of
    such values are used in the theorems.
  * The network is modelled as an oracle `fetch : String → FetchOutcome`; the
    resolver threads an explicit cache state and returns the list of network
    calls it issued.  The post-success 1000 ms delay is a timing effect with no
    data-flow consequence and is not modelled.
-/

/-- Whitespace as matched by the JS `\s` class / `String.prototype.trim`. -/
def isJsWs (c : Char) : Bool :=
  c = ' ' ∨ c = '\t' ∨ c = '\n' ∨ c = '\r' ∨ c.toNat = 0xb ∨ c.toNat = 0xc ∨
  c.toNat = 0xa0 ∨ c.toNat = 0x1680 ∨ (0x2000 ≤ c.toNat ∧ c.toNat ≤ 0x200a) ∨
  c.toNat = 0x2028 ∨ c.toNat = 0x2029 ∨ c.toNat = 0x202f ∨ c.toNat = 0x205f ∨
  c.toNat = 0x3000 ∨ c.toNat = 0xfeff

/-- `needle.isPrefixOf hay`, decidable, structural. -/
def isPref : List Char → List Char → Bool
  | [], _ => true
  | _ :: _, [] => false
  | a :: as, b :: bs => a = b && isPref as bs

/-- JS `hay.includes(needle)` for strings (as char lists). -/
def listContains : List Char → List Char → Bool
  | hay, pat =>
    isPref pat hay ||
      (match hay with
       | [] => false
       | _ :: t => listContains t pat)

/-- JS `String.prototype.trim` (both ends). -/
def trimChars (l : List Char) : List Char :=
  ((l.dropWhile isJsWs).reverse.dropWhile isJsWs).reverse

/-- JS `str.split('\n')` (`"" → [""]`). -/
def splitLinesAux : List Char → List Char → List (List Char)
  | [], cur => [cur.reverse]
  | '\n' :: rest, cur => cur.reverse :: splitLinesAux rest []
  | c :: rest, cur => splitLinesAux rest (c :: cur)

def splitLines (l : List Char) : List (List Char) := splitLinesAux l []

/-- JS `arr.join('\n')`. -/
def joinLines : List (List Char) → List Char
  | [] => []
  | [l] => l
  | l :: ls => l ++ '\n' :: joinLines ls

/-- JS `str.split(sep-class)` for a single-char separator class. -/
def splitOnPredAux (p : Char → Bool) : List Char → List Char → List (List Char)
  | [], cur => [cur.reverse]
  | c :: rest, cur =>
    if p c then cur.reverse :: splitOnPredAux p rest []
    else splitOnPredAux p rest (c :: cur)

def splitOnPred (p : Char → Bool) (l : List Char) : List (List Char) :=
  splitOnPredAux p l []

/-- A line matching `^##\s+` (a second-level markdown header). -/
def isH2 (l : List Char) : Bool :=
  match l with
  | '#' :: '#' :: c :: _ => isJsWs c
  | _ => false

/-- markdownParser.js `extractSection`: single forward scan keeping the lines
between a level-2 header containing one of the patterns and the next level-2
header that contains none of them. -/
def sectionLines (pats : List String) : List (List Char) → Bool → List (List Char)
  | [], _ => []
  | l :: ls, inS =>
    if isH2 l then
      if pats.any (fun p => listContains l p.data) then sectionLines pats ls true
      else if inS then []
      else sectionLines pats ls false
    else if inS then l :: sectionLines pats ls true
    else sectionLines pats ls false

def extractSection (text : String) (pats : List String) : String :=
  String.mk (joinLines (sectionLines pats (splitLines text.data) false))

/-- One alternative of the key group of `extractField`'s regex:
the key literal must be followed by `**：`. -/
def tryKey (l : List Char) (k : String) : Option (List Char) :=
  if isPref k.data l then
    match l.drop k.data.length with
    | '*' :: '*' :: '：' :: r => some r
    | _ => none
  else none

def firstKey (l : List Char) : List String → Option (List Char)
  | [] => none
  | k :: ks =>
    match tryKey l k with
    | some r => some r
    | none => firstKey l ks

/-- markdownParser.js `extractField`: the regex
`^-\s*\*\*(k1|k2|…)\*\*：\s*(.+)`; on a match, `match[2].trim()`, else null. -/
def extractField (l : List Char) (keys : List String) : Option String :=
  match l with
  | '-' :: rest =>
    match (rest.dropWhile isJsWs) with
    | '*' :: '*' :: r2 =>
      match firstKey r2 keys with
      | some r3 => if r3.isEmpty then none else some (String.mk (trimChars r3))
      | none => none
    | _ => none
  | _ => none

/-- The `type` field of a location record (`"normal" | "birth" | "death"`). -/
inductive LocType where
  | normal : LocType
  | birth : LocType
  | death : LocType
  deriving DecidableEq, Repr

/-- The `result.person` object; a field is `none` when the JS property is
absent or null. -/
structure Person where
  name : Option String
  era : Option String
  birth : Option String
  death : Option String
  age : Option String
  roles : Option String
  deriving DecidableEq, Repr

def emptyPerson : Person := ⟨none, none, none, none, none, none⟩

structure LocationRecord where
  name : String
  type : LocType
  time : String
  desc : String
  significance : String
  quotes : List String
  locationDesc : Option String
  deriving DecidableEq, Repr

structure TimelineEntry where
  year : String
  age : String
  event : String
  deriving DecidableEq, Repr

structure ParseResult where
  person : Person
  locations : List LocationRecord
  timeline : List TimelineEntry
  intro : String
  deriving DecidableEq, Repr

def emptyParse : ParseResult := ⟨emptyPerson, [], [], ""⟩

/-- The emoji class `[🟢🔴📍]` of the location-header regex (code-point model). -/
def emoji3 (c : Char) : Bool := c = '🟢' ∨ c = '🔴' ∨ c = '📍'

/-- `line.match(/^###\s+[🟢🔴📍]?\s*(.+)/)` followed by `match[1].trim()`.
The branches reproduce the backtracking behaviour of the regex engine:
greedy `\s+`, then the optional emoji (preferred consumed), then greedy `\s*`,
then `(.+)` needing at least one character. -/
def h3Name (l : List Char) : Option String :=
  match l with
  | '#' :: '#' :: '#' :: rest =>
    let w := rest.takeWhile isJsWs
    let t := rest.drop w.length
    if w.isEmpty then none
    else
      match t with
      | [] => if 2 ≤ w.length then some "" else none
      | e :: t2 =>
        if emoji3 e then
          if t2.isEmpty then some (String.mk [e])
          else some (String.mk (trimChars t2))
        else some (String.mk (trimChars t))
  | _ => none

/-- `name.replace(/出生地[：:]\s*/, "")` and friends: drop the first occurrence
of the marker followed by a (full- or half-width) colon and trailing
whitespace; if the marker never occurs with a colon, the string is unchanged. -/
def replaceMarkerAux (marker : List Char) : List Char → List Char
  | [] => []
  | c :: rest =>
    if isPref marker (c :: rest) then
      match (c :: rest).drop marker.length with
      | d :: r2 =>
        if d = '：' ∨ d = ':' then r2.dropWhile isJsWs
        else c :: replaceMarkerAux marker rest
      | [] => c :: replaceMarkerAux marker rest
    else c :: replaceMarkerAux marker rest

def replaceMarker (s : String) (marker : String) : String :=
  String.mk (replaceMarkerAux marker.data s.data)

/-- `name.replace(/^[\u{1F300}-\u{1F9FF}]/u, "")`. -/
def stripLeadEmoji : List Char → List Char
  | [] => []
  | c :: rest => if 0x1F300 ≤ c.toNat ∧ c.toNat ≤ 0x1F9FF then rest else c :: rest

/-- The header-classification block of parseMarkdown (lines 77-91): marker
detection, marker stripping, leading-emoji stripping, final trim. -/
def classifyHeader (n0 : String) : String × LocType :=
  let p :=
    if listContains n0.data "出生地".data then (replaceMarker n0 "出生地", LocType.birth)
    else if listContains n0.data "去世地".data then (replaceMarker n0 "去世地", LocType.death)
    else if listContains n0.data "重要地点".data then (replaceMarker n0 "重要地点", LocType.normal)
    else (n0, LocType.normal)
  (String.mk (trimChars (stripLeadEmoji p.1.data)), p.2)

def mkLocation (raw : String) : LocationRecord :=
  let p := classifyHeader raw
  ⟨p.1, p.2, "", "", "", [], none⟩

def splitQuotes (v : String) : List String :=
  ((splitOnPred (fun c => c = '；' ∨ c = ';') v.data).map
    (fun x => String.mk (trimChars x))).filter (fun s => s ≠ "")

/-- The body of the `if (currentLocation)` branch: each field assignment is
guarded by the truthiness of the extracted value. -/
def updateLoc (c : LocationRecord) (l : List Char) : LocationRecord :=
  let c1 := match extractField l ["公元纪年", "时间", "时段"] with
            | some v => if v = "" then c else { c with time := v }
            | none => c
  let c2 := match extractField l ["事迹", "经过", "事件"] with
            | some v => if v = "" then c1 else { c1 with desc := v }
            | none => c1
  let c3 := match extractField l ["意义", "影响"] with
            | some v => if v = "" then c2 else { c2 with significance := v }
            | none => c2
  let c4 := match extractField l ["名篇名句", "代表名句", "名句"] with
            | some v => if v = "" then c3 else { c3 with quotes := splitQuotes v }
            | none => c3
  match extractField l ["位置", "地点"] with
  | some v => if v = "" then c4 else { c4 with locationDesc := some v }
  | none => c4

/-- The location-section scan of parseMarkdown: level-3 headers open a new
record (flushing the previous one), other lines mutate the open record, and
the final open record is flushed at end of section. -/
def locScan : List (List Char) → Option LocationRecord → List LocationRecord →
    List LocationRecord
  | [], cur, acc =>
    match cur with
    | some c => acc ++ [c]
    | none => acc
  | l :: ls, cur, acc =>
    match h3Name l with
    | some raw =>
      locScan ls (some (mkLocation raw))
        (match cur with
         | some c => acc ++ [c]
         | none => acc)
    | none =>
      match cur with
      | some c => locScan ls (some (updateLoc c l)) acc
      | none => locScan ls none acc

/-- `line.match(/^###\s+生平概述/)`. -/
def isOverviewHeader (l : List Char) : Bool :=
  match l with
  | '#' :: '#' :: '#' :: rest =>
    let w := rest.takeWhile isJsWs
    !w.isEmpty && isPref "生平概述".data (rest.drop w.length)
  | _ => false

def startsWithHash (l : List Char) : Bool :=
  match l with
  | '#' :: _ => true
  | _ => false

/-- One line of the profile loop: the six `includes`-guarded field
assignments, then the overview-header check, then intro accumulation. -/
def profileStep (st : Person × Bool × String) (l : List Char) :
    Person × Bool × String :=
  let p := st.1
  let p := if listContains l "**姓名**".data then { p with name := extractField l ["姓名"] } else p
  let p := if listContains l "**时代**".data then { p with era := extractField l ["时代", "朝代"] } else p
  let p := if listContains l "**出生**".data then { p with birth := extractField l ["出生"] } else p
  let p := if listContains l "**去世**".data then { p with death := extractField l ["去世"] } else p
  let p := if listContains l "**享年**".data then { p with age := extractField l ["享年"] } else p
  let p := if listContains l "**主要身份**".data then { p with roles := extractField l ["主要身份"] } else p
  if isOverviewHeader l then (p, true, st.2.2)
  else if st.2.1 ∧ ¬ trimChars l = [] ∧ ¬ startsWithHash l = true then
    (p, st.2.1, st.2.2 ++ String.mk (trimChars l) ++ " ")
  else (p, st.2.1, st.2.2)

def parseProfile (lines : List (List Char)) : Person × String :=
  let r := lines.foldl profileStep (emptyPerson, false, "")
  (r.1, r.2.2)

/-- `line.trim().startsWith("|")`. -/
def startsWithPipe (l : List Char) : Bool :=
  match trimChars l with
  | '|' :: _ => true
  | _ => false

/-- The timeline-table scan: a `|`-starting line containing 年份 (re)starts
the table; subsequent `|` rows without `---` are split on `|`, trimmed,
emptied of blank cells and kept when at least 3 cells remain. -/
def parseTimeline : List (List Char) → Bool → List TimelineEntry →
    List TimelineEntry
  | [], _, acc => acc
  | l :: ls, started, acc =>
    if startsWithPipe l && listContains l "年份".data then
      parseTimeline ls true acc
    else if started && startsWithPipe l && !listContains l "---".data then
      match ((splitOnPred (fun c => c = '|') l).map
          (fun x => String.mk (trimChars x))).filter (fun s => s ≠ "") with
      | y :: a :: e :: _ => parseTimeline ls started (acc ++ [⟨y, a, e⟩])
      | _ => parseTimeline ls started acc
    else parseTimeline ls started acc

/-- markdownParser.js `parseMarkdown`. -/
def parseMarkdown (markdown : String) : ParseResult :=
  if markdown = "" then emptyParse
  else
    let profile := extractSection markdown ["人物档案", "基本信息"]
    let pi := if profile = "" then (emptyPerson, "") else parseProfile (splitLines profile.data)
    let locSec := extractSection markdown ["人生历程", "重要地点"]
    let locations := if locSec = "" then [] else locScan (splitLines locSec.data) none []
    let tlSec := extractSection markdown ["生平时间线"]
    let timeline := if tlSec = "" then [] else parseTimeline (splitLines tlSec.data) false []
    ⟨pi.1, locations, timeline, pi.2⟩

/-- StoryMap.jsx line 187: `loc.locationDesc || loc.name` (JS `||`, so an
empty `locationDesc` also falls back to `name`). -/
def queryBase (loc : LocationRecord) : String :=
  match loc.locationDesc with
  | some d => if d = "" then loc.name else d
  | none => loc.name

/-- `geoName.match(/今([^）)]+)/)`: first 今 followed by a non-empty greedy run
of characters other than the two closing parentheses. -/
def jinMatch : List Char → Option (List Char)
  | [] => none
  | c :: rest =>
    if c = '今' then
      let run := rest.takeWhile (fun d => !(d = '）' ∨ d = ')'))
      if run.isEmpty then jinMatch rest else some run
    else jinMatch rest

/-- StoryMap.jsx lines 191-194: the 今 branch. -/
def jinSubst (s : List Char) : List Char :=
  if listContains s ['今'] then
    match jinMatch s with
    | some run => run
    | none => s
  else s

def isOpenParen (c : Char) : Bool := c = '（' ∨ c = '('

/-- Skip to just past the first closing parenthesis, failing on a newline
(the regex `.` does not cross lines). -/
def dropThroughCloser : List Char → Option (List Char)
  | [] => none
  | c :: rest =>
    if c = '）' ∨ c = ')' then some rest
    else if c = '\n' then none
    else dropThroughCloser rest

/-- `geoName.replace(/[（(].*?[）)]/g, "")`. -/
def stripParensAux : Nat → List Char → List Char
  | 0, l => l
  | _ + 1, [] => []
  | fuel + 1, c :: rest =>
    if isOpenParen c then
      match dropThroughCloser rest with
      | some post => stripParensAux fuel post
      | none => c :: stripParensAux fuel rest
    else c :: stripParensAux fuel rest

def stripParens (l : List Char) : List Char := stripParensAux l.length l

/-- StoryMap.jsx lines 187-196: the location-name normalizer producing the
geocoding query for a record. -/
def normalizeQuery (loc : LocationRecord) : String :=
  let g2 := trimChars (stripParens (jinSubst (queryBase loc).data))
  if g2.isEmpty then loc.name else String.mk g2

/-- A JS number as produced by `parseFloat`: NaN, a signed infinity, or the
exact decimal rational num/den (den a power of ten, at least 1). -/
inductive JSNum where
  | nan : JSNum
  | inf : Bool → JSNum
  | fin : Int → Nat → JSNum
  deriving DecidableEq, Repr

def digitsVal (l : List Char) : Nat :=
  l.foldl (fun a c => a * 10 + (c.toNat - '0'.toNat)) 0

/-- JS `parseFloat`: leading whitespace skipped, optional sign, `Infinity`
literal or longest decimal prefix (digits, optional fraction, optional
well-formed exponent); NaN when no digits are found. -/
def jsParseFloat (s : String) : JSNum :=
  let l0 := s.data.dropWhile isJsWs
  let neg := match l0 with
             | '-' :: _ => true
             | _ => false
  let l := match l0 with
           | '-' :: r => r
           | '+' :: r => r
           | _ => l0
  if isPref "Infinity".data l then JSNum.inf (!neg)
  else
    let ip := l.takeWhile Char.isDigit
    let r1 := l.drop ip.length
    let fp := match r1 with
              | '.' :: r => r.takeWhile Char.isDigit
              | _ => []
    let r2 := match r1 with
              | '.' :: r => r.drop fp.length
              | _ => r1
    if ip.isEmpty ∧ fp.isEmpty then JSNum.nan
    else
      let mant : Nat := digitsVal ip * 10 ^ fp.length + digitsVal fp
      let ed := match r2 with
                | 'e' :: '-' :: r => r.takeWhile Char.isDigit
                | 'e' :: '+' :: r => r.takeWhile Char.isDigit
                | 'e' :: r => r.takeWhile Char.isDigit
                | 'E' :: '-' :: r => r.takeWhile Char.isDigit
                | 'E' :: '+' :: r => r.takeWhile Char.isDigit
                | 'E' :: r => r.takeWhile Char.isDigit
                | _ => []
      let eneg := match r2 with
                  | 'e' :: '-' :: _ => true
                  | 'E' :: '-' :: _ => true
                  | _ => false
      let eVal := digitsVal ed
      let num : Int := (if neg then -(mant : Int) else (mant : Int)) *
        (if eneg then 1 else (10 : Int) ^ eVal)
      let den : Nat := (10 ^ fp.length) * (if eneg then 10 ^ eVal else 1)
      JSNum.fin num den

/-- A geographic coordinate as built by the resolver
(`{ lat: parseFloat(lat), lng: parseFloat(lon) }`). -/
structure Coord where
  lat : JSNum
  lng : JSNum
  deriving DecidableEq, Repr

/-- One element of the provider's JSON result array (`{ lat, lon }`,
string-typed numeric fields). -/
structure RawResult where
  lat : String
  lon : String
  deriving DecidableEq, Repr

/-- The possible outcomes of one `fetch` of the geocoding provider:
a thrown network error, a non-ok HTTP status, a JSON parse error, or a
parsed result array (a non-array JSON body behaves as `ok []`). -/
inductive FetchOutcome where
  | netError : FetchOutcome
  | badStatus : FetchOutcome
  | jsonError : FetchOutcome
  | ok : List RawResult → FetchOutcome
  deriving DecidableEq, Repr

/-- The two cache layers of the resolver: the in-memory `GEOCODE_CACHE` map
and the durable `localStorage`.  A durable entry `some c` is a stored string
that `JSON.parse`s back to the coordinate `c`; `none` is a stored string on
which `JSON.parse` throws (a malformed entry). -/
structure GeoState where
  mem : List (String × Coord)
  store : List (String × Option Coord)
  deriving DecidableEq, Repr

def initGeoState : GeoState := ⟨[], []⟩

/-- First-match association lookup (JS `Map.get` / `localStorage.getItem`
under the prepend-on-set discipline below). -/
def alookup {α : Type} : List (String × α) → String → Option α
  | [], _ => none
  | (k, v) :: rest, key => if key = k then some v else alookup rest key

/-- `Map.set` / `localStorage.setItem` (prepend; `alookup` sees the newest). -/
def aset {α : Type} (l : List (String × α)) (k : String) (v : α) :
    List (String × α) :=
  (k, v) :: l

/-- `localStorage.removeItem`. -/
def aremove {α : Type} (l : List (String × α)) (key : String) :
    List (String × α) :=
  l.filter (fun p => p.1 ≠ key)

def mkKey (name : String) : String := "geocode_" ++ name

/-- The network part of `geocodeCity` (after both caches miss): one fetch;
on `ok` with a non-empty array, parse the first result's fields, populate
both cache layers and return the coordinate; otherwise return null.
The third component lists the network calls issued. -/
def fetchPath (fetch : String → FetchOutcome) (name : String) (st : GeoState) :
    Option Coord × GeoState × List String :=
  match fetch name with
  | FetchOutcome.ok (r :: _) =>
    let c : Coord := ⟨jsParseFloat r.lat, jsParseFloat r.lon⟩
    (some c, ⟨aset st.mem name c, aset st.store (mkKey name) (some c)⟩, [name])
  | _ => (none, st, [name])

/-- `geocodeCity(name)`: falsy-name early return, memory-cache hit,
durable-cache hit (with eviction of a malformed entry), then network. -/
def geocodeCity (fetch : String → FetchOutcome) (name : String) (st : GeoState) :
    Option Coord × GeoState × List String :=
  if name = "" then (none, st, [])
  else
    match alookup st.mem name with
    | some c => (some c, st, [])
    | none =>
      match alookup st.store (mkKey name) with
      | some (some c) => (some c, ⟨aset st.mem name c, st.store⟩, [])
      | some none => fetchPath fetch name ⟨st.mem, aremove st.store (mkKey name)⟩
      | none => fetchPath fetch name st

/-- The result a fresh (cache-missing) `geocodeCity` call yields for a query,
as a pure function of the fetch oracle. -/
def oracleOf (fetch : String → FetchOutcome) (name : String) : Option Coord :=
  if name = "" then none
  else
    match fetch name with
    | FetchOutcome.ok (r :: _) => some ⟨jsParseFloat r.lat, jsParseFloat r.lon⟩
    | _ => none

/-- Both cache layers agree with the fetch oracle (holds for the empty state
and is preserved by every `geocodeCity` call). -/
def Consistent (fetch : String → FetchOutcome) (st : GeoState) : Prop :=
  (∀ n c, alookup st.mem n = some c → oracleOf fetch n = some c) ∧
  (∀ n c, alookup st.store (mkKey n) = some (some c) → oracleOf fetch n = some c)

/-- `{ ...loc, ...coords }` as pushed into `geocodedLocations`. -/
structure ResolvedLocation where
  loc : LocationRecord
  lat : JSNum
  lng : JSNum
  deriving DecidableEq, Repr

def mkResolved (loc : LocationRecord) (c : Coord) : ResolvedLocation :=
  ⟨loc, c.lat, c.lng⟩

/-- The per-record resolution policy of the orchestrator loop, relative to a
pure resolution oracle: resolve the normalized query; on failure retry with
the bare `name` only when it differs from the query already tried. -/
def pureResolveRecord (resolve : String → Option Coord) (loc : LocationRecord) :
    Option ResolvedLocation :=
  let q := normalizeQuery loc
  match resolve q with
  | some c => some (mkResolved loc c)
  | none =>
    if q ≠ loc.name then
      match resolve loc.name with
      | some c => some (mkResolved loc c)
      | none => none
    else none

/-- StoryMap.jsx lines 186-208: the geocoding loop of `handleGenerate`,
threading the cache state and collecting the network calls issued. -/
def processLocations (fetch : String → FetchOutcome) :
    List LocationRecord → GeoState →
    List ResolvedLocation × GeoState × List String
  | [], st => ([], st, [])
  | loc :: rest, st =>
    let geoName := normalizeQuery loc
    let r1 := geocodeCity fetch geoName st
    match r1.1 with
    | some c =>
      let rr := processLocations fetch rest r1.2.1
      (mkResolved loc c :: rr.1, rr.2.1, r1.2.2 ++ rr.2.2)
    | none =>
      if geoName ≠ loc.name then
        let r2 := geocodeCity fetch loc.name r1.2.1
        match r2.1 with
        | some c =>
          let rr := processLocations fetch rest r2.2.1
          (mkResolved loc c :: rr.1, rr.2.1, r1.2.2 ++ r2.2.2 ++ rr.2.2)
        | none =>
          let rr := processLocations fetch rest r2.2.1
          (rr.1, rr.2.1, r1.2.2 ++ r2.2.2 ++ rr.2.2)
      else
        let rr := processLocations fetch rest r1.2.1
        (rr.1, rr.2.1, r1.2.2 ++ rr.2.2)

/-- A finite value within ±bound (finiteness and magnitude of the exact
decimal rational; NaN and infinities fail). -/
def JSNum.withinRange (x : JSNum) (bound : Nat) : Bool :=
  match x with
  | JSNum.fin n d => decide (-((bound : Int) * d) ≤ n) && decide (n ≤ (bound : Int) * d)
  | _ => false

/-- Latitude in [-90, 90] and longitude in [-180, 180], both finite. -/
def coordWithinBounds (c : Coord) : Bool :=
  c.lat.withinRange 90 && c.lng.withinRange 180

def isFailOutcome : FetchOutcome → Bool
  | FetchOutcome.netError => true
  | FetchOutcome.badStatus => true
  | FetchOutcome.jsonError => true
  | FetchOutcome.ok _ => false

/-- A concrete provider for the end-to-end example: resolves 长安 only. -/
def demoFetch : String → FetchOutcome := fun q =>
  if q = "长安" then FetchOutcome.ok [⟨"34.3", "108.9"⟩] else FetchOutcome.netError

/-- A concrete biography: two valid location headers, the first resolvable,
the second failing both its normalized query and its bare name. -/
def demoBio : String :=
  "## 人生历程\n### 出生地：长安\n### 瀛洲\n- **位置**：东海仙山（传说）"

theorem alookup_aset {α : Type} (l : List (String × α)) (k k' : String) (v : α) :
    alookup (aset l k v) k' = if k' = k then some v else alookup l k' := by
  simp [alookup, aset]

theorem alookup_aremove {α : Type} (l : List (String × α)) (key k' : String) :
    alookup (aremove l key) k' = if k' = key then none else alookup l k' := by
  induction l with
  | nil => simp [aremove, alookup]
  | cons p rest ih =>
    by_cases hk : p.1 = key
    · have hrw : aremove (p :: rest) key = aremove rest key := by
        simp [aremove, List.filter_cons, hk]
      rw [hrw, ih]
      by_cases hk' : k' = key
      · simp [hk']
      · have hne : ¬ k' = p.1 := fun hc => hk' (hk ▸ hc)
        rw [if_neg hk', if_neg hk']
        simp [alookup, hne]
    · have hrw : aremove (p :: rest) key = p :: aremove rest key := by
        simp [aremove, List.filter_cons, hk]
      rw [hrw]
      by_cases hk' : k' = p.1
      · have hne : ¬ k' = key := fun hc => hk (hk' ▸ hc)
        simp [alookup, hk', hne, hk]
      · simp only [alookup, if_neg hk', ih]

theorem mkKey_inj {a b : String} (h : mkKey a = mkKey b) : a = b := by
  cases a with
  | mk la =>
    cases b with
    | mk lb =>
      have hd := congrArg String.data h
      simp only [mkKey, String.data_append] at hd
      exact congrArg String.mk (List.append_cancel_left hd)

theorem consistent_init (fetch : String → FetchOutcome) :
    Consistent fetch initGeoState := by
  constructor <;> intro n c h <;> simp [initGeoState, alookup] at h

theorem consistent_aremove (fetch : String → FetchOutcome) (st : GeoState)
    (key : String) (h : Consistent fetch st) :
    Consistent fetch ⟨st.mem, aremove st.store key⟩ := by
  refine ⟨h.1, fun n c hl => ?_⟩
  rw [alookup_aremove] at hl
  by_cases hnk : mkKey n = key
  · simp [hnk] at hl
  · rw [if_neg hnk] at hl
    exact h.2 n c hl

theorem fetchPath_oracle (fetch : String → FetchOutcome) (name : String)
    (st : GeoState) (h0 : ¬ name = "") (h : Consistent fetch st) :
    (fetchPath fetch name st).1 = oracleOf fetch name ∧
      Consistent fetch (fetchPath fetch name st).2.1 := by
  cases hf : fetch name with
  | ok results =>
    cases results with
    | nil => simpa [fetchPath, oracleOf, hf, h0] using h
    | cons r rs =>
      refine ⟨by simp [fetchPath, oracleOf, hf, h0], ?_, ?_⟩
      · intro n c hl
        simp only [fetchPath, hf] at hl
        rw [alookup_aset] at hl
        by_cases hn : n = name
        · subst hn
          rw [if_pos rfl] at hl
          simp only [Option.some.injEq] at hl
          simp [oracleOf, hf, h0, ← hl]
        · rw [if_neg hn] at hl
          exact h.1 n c hl
      · intro n c hl
        simp only [fetchPath, hf] at hl
        rw [alookup_aset] at hl
        by_cases hn : mkKey n = mkKey name
        · rw [if_pos hn] at hl
          simp only [Option.some.injEq] at hl
          have hn' := mkKey_inj hn
          subst hn'
          simp [oracleOf, hf, h0, ← hl]
        · rw [if_neg hn] at hl
          exact h.2 n c hl
  | netError => simpa [fetchPath, oracleOf, hf, h0] using h
  | badStatus => simpa [fetchPath, oracleOf, hf, h0] using h
  | jsonError => simpa [fetchPath, oracleOf, hf, h0] using h

theorem geocodeCity_oracle (fetch : String → FetchOutcome) (name : String)
    (st : GeoState) (h : Consistent fetch st) :
    (geocodeCity fetch name st).1 = oracleOf fetch name ∧
      Consistent fetch (geocodeCity fetch name st).2.1 := by
  by_cases h0 : name = ""
  · subst h0
    simpa [geocodeCity, oracleOf] using h
  · cases hm : alookup st.mem name with
    | some c =>
      have hoc := h.1 name c hm
      simpa [geocodeCity, h0, hm, hoc] using h
    | none =>
      cases hs : alookup st.store (mkKey name) with
      | some oc =>
        cases oc with
        | some c =>
          have hoc := h.2 name c hs
          refine ⟨by simp [geocodeCity, h0, hm, hs, hoc], ?_, ?_⟩
          · intro n c' hl
            simp [geocodeCity, h0, hm, hs] at hl
            rw [alookup_aset] at hl
            by_cases hn : n = name
            · subst hn
              rw [if_pos rfl] at hl
              simp only [Option.some.injEq] at hl
              rw [← hl]
              exact hoc
            · rw [if_neg hn] at hl
              exact h.1 n c' hl
          · intro n c' hl
            simp [geocodeCity, h0, hm, hs] at hl
            exact h.2 n c' hl
        | none =>
          have hst := consistent_aremove fetch st (mkKey name) h
          have := fetchPath_oracle fetch name ⟨st.mem, aremove st.store (mkKey name)⟩ h0 hst
          simpa [geocodeCity, h0, hm, hs] using this
      | none =>
        have := fetchPath_oracle fetch name st h0 h
        simpa [geocodeCity, h0, hm, hs] using this

theorem processLocations_eq_filterMap (fetch : String → FetchOutcome)
    (locs : List LocationRecord) (st : GeoState) (h : Consistent fetch st) :
    (processLocations fetch locs st).1 =
      locs.filterMap (pureResolveRecord (oracleOf fetch)) := by
  induction locs generalizing st with
  | nil => simp [processLocations]
  | cons loc rest ih =>
    obtain ⟨e1, c1⟩ := geocodeCity_oracle fetch (normalizeQuery loc) st h
    cases ho : oracleOf fetch (normalizeQuery loc) with
    | some c =>
      rw [ho] at e1
      simp [processLocations, e1, List.filterMap_cons, pureResolveRecord, ho,
        ih _ c1]
    | none =>
      rw [ho] at e1
      by_cases hq : normalizeQuery loc ≠ loc.name
      · obtain ⟨e2, c2⟩ :=
          geocodeCity_oracle fetch loc.name
            (geocodeCity fetch (normalizeQuery loc) st).2.1 c1
        cases ho2 : oracleOf fetch loc.name with
        | some c =>
          rw [ho2] at e2
          simp [processLocations, e1, e2, hq, List.filterMap_cons,
            pureResolveRecord, ho, ho2, ih _ c2]
        | none =>
          rw [ho2] at e2
          simp [processLocations, e1, e2, hq, List.filterMap_cons,
            pureResolveRecord, ho, ho2, ih _ c2]
      · simp [processLocations, e1, hq, List.filterMap_cons,
          pureResolveRecord, ho, ih _ c1]

theorem pureResolveRecord_coord (resolve : String → Option Coord)
    (loc : LocationRecord) (r : ResolvedLocation)
    (h : pureResolveRecord resolve loc = some r) :
    ∃ q, resolve q = some ⟨r.lat, r.lng⟩ := by
  simp only [pureResolveRecord] at h
  cases h1 : resolve (normalizeQuery loc) with
  | some c =>
    rw [h1] at h
    simp only [Option.some.injEq] at h
    refine ⟨normalizeQuery loc, ?_⟩
    rw [h1, ← h]
    rfl
  | none =>
    rw [h1] at h
    by_cases hq : normalizeQuery loc ≠ loc.name
    · rw [if_pos hq] at h
      cases h2 : resolve loc.name with
      | some c =>
        rw [h2] at h
        simp only [Option.some.injEq] at h
        refine ⟨loc.name, ?_⟩
        rw [h2, ← h]
        rfl
      | none => rw [h2] at h; cases h
    · rw [if_neg hq] at h; cases h

/-- The five level-2 header patterns parseMarkdown recognizes. -/
def recognizedPats : List String :=
  ["人物档案", "基本信息", "人生历程", "重要地点", "生平时间线"]

/-- No line of the input is a level-2 header containing a recognized
section pattern. -/
def noRecognizedHeader (md : String) : Bool :=
  (splitLines md.data).all
    (fun l => !(isH2 l && recognizedPats.any (fun p => listContains l p.data)))

theorem sectionLines_nil (pats : List String) (lines : List (List Char))
    (hsub : ∀ p ∈ pats, p ∈ recognizedPats)
    (h : ∀ l ∈ lines,
      (isH2 l && recognizedPats.any (fun p => listContains l p.data)) = false) :
    sectionLines pats lines false = [] := by
  induction lines with
  | nil => rfl
  | cons l ls ih =>
    have hl := h l (List.mem_cons_self l ls)
    have ihl := ih (fun x hx => h x (List.mem_cons_of_mem l hx))
    by_cases hH : isH2 l = true
    · have hany : recognizedPats.any (fun p => listContains l p.data) = false := by
        cases hA : recognizedPats.any (fun p => listContains l p.data)
        · rfl
        · rw [hH, hA] at hl; cases hl
      have hpats : pats.any (fun p => listContains l p.data) = false := by
        rw [List.any_eq_false]
        intro p hp
        have := (List.any_eq_false.mp hany) p (hsub p hp)
        simpa using this
      simp [sectionLines, hH, hpats, ihl]
    · simp only [Bool.not_eq_true] at hH
      simp [sectionLines, hH, ihl]

theorem locScan_length (lines : List (List Char)) (cur : Option LocationRecord)
    (acc : List LocationRecord) :
    (locScan lines cur acc).length =
      acc.length + (match cur with | some _ => 1 | none => 0) +
        lines.countP (fun l => (h3Name l).isSome) := by
  induction lines generalizing cur acc with
  | nil => cases cur <;> simp [locScan]
  | cons l ls ih =>
    cases hh : h3Name l with
    | some raw =>
      cases cur <;>
        simp [locScan, hh, ih, List.countP_cons] <;> omega
    | none =>
      cases cur <;>
        simp [locScan, hh, ih, List.countP_cons]

theorem updateLoc_keeps_name_type (c : LocationRecord) (l : List Char) :
    (updateLoc c l).name = c.name ∧ (updateLoc c l).type = c.type := by
  simp only [updateLoc]
  repeat' split
  all_goals exact ⟨rfl, rfl⟩

/-- A record's (name, type) pair originates from `classifyHeader` on some
raw header text. -/
def FromHeader (r : LocationRecord) : Prop :=
  ∃ raw : String,
    r.name = (classifyHeader raw).1 ∧ r.type = (classifyHeader raw).2

theorem locScan_from_header (lines : List (List Char))
    (cur : Option LocationRecord) (acc : List LocationRecord)
    (hacc : ∀ r ∈ acc, FromHeader r)
    (hcur : ∀ r, cur = some r → FromHeader r) :
    ∀ r ∈ locScan lines cur acc, FromHeader r := by
  induction lines generalizing cur acc with
  | nil =>
    intro r hr
    cases cur with
    | some c =>
      simp only [locScan, List.mem_append, List.mem_singleton] at hr
      cases hr with
      | inl hmem => exact hacc r hmem
      | inr heq => exact heq ▸ hcur c rfl
    | none => exact hacc r hr
  | cons l ls ih =>
    intro r hr
    cases hh : h3Name l with
    | some raw =>
      simp only [locScan, hh] at hr
      refine ih (some (mkLocation raw)) _ ?_ ?_ r hr
      · intro x hx
        cases cur with
        | some c =>
          simp only [List.mem_append, List.mem_singleton] at hx
          cases hx with
          | inl hmem => exact hacc x hmem
          | inr heq => exact heq ▸ hcur c rfl
        | none => exact hacc x hx
      · intro x hx
        injection hx with hx
        refine hx ▸ ⟨raw, ?_, ?_⟩ <;> rfl
    | none =>
      cases hc : cur with
      | some c =>
        simp only [locScan, hh, hc] at hr
        refine ih (some (updateLoc c l)) acc hacc ?_ r hr
        intro x hx
        injection hx with hx
        obtain ⟨raw, h1, h2⟩ := hcur c hc
        obtain ⟨hn, ht⟩ := updateLoc_keeps_name_type c l
        exact ⟨raw, by rw [← hx, hn, h1], by rw [← hx, ht, h2]⟩
      | none =>
        simp only [locScan, hh, hc] at hr
        exact ih none acc hacc (fun x hx => Option.noConfusion hx) r hr

theorem classifyHeader_no_marker_normal (raw : String)
    (h1 : listContains raw.data "出生地".data = false)
    (h2 : listContains raw.data "去世地".data = false) :
    (classifyHeader raw).2 = LocType.normal := by
  unfold classifyHeader
  rw [h1, h2]
  simp only [Bool.false_eq_true, if_false]
  split <;> rfl

theorem stripParensAux_id (fuel : Nat) (l : List Char)
    (h : ∀ c ∈ l, isOpenParen c = false) (hf : l.length ≤ fuel) :
    stripParensAux fuel l = l := by
  induction fuel generalizing l with
  | zero =>
    cases l with
    | nil => rfl
    | cons c rest => simp at hf
  | succ n ih =>
    cases l with
    | nil => rfl
    | cons c rest =>
      have hc := h c (List.mem_cons_self c rest)
      simp only [stripParensAux, hc]
      rw [ih rest (fun d hd => h d (List.mem_cons_of_mem c hd))
        (Nat.le_of_succ_le_succ (by simpa using hf))]
      simp [hc]

theorem stripParens_id (l : List Char) (h : l.all (fun c => !isOpenParen c) = true) :
    stripParens l = l := by
  refine stripParensAux_id l.length l ?_ (Nat.le_refl _)
  intro c hc
  have := (List.all_eq_true.mp h) c hc
  simpa using this

/-- C2: for every input lacking any recognized level-2 section header the
extractor returns empty locations, empty timeline, an all-absent person and
empty intro; it is total by construction (a Lean function), so it never
throws. -/
theorem parse_markdown_no_sections (md : String)
    (h : noRecognizedHeader md = true) : parseMarkdown md = emptyParse := by
  by_cases h0 : md = ""
  · simp [parseMarkdown, h0]
  · have hlines : ∀ l ∈ splitLines md.data,
        (isH2 l && recognizedPats.any (fun p => listContains l p.data)) = false := by
      intro l hl
      have h2 := (List.all_eq_true.mp h) l hl
      cases hx : (isH2 l && recognizedPats.any (fun p => listContains l p.data)) with
      | false => rfl
      | true => rw [hx] at h2; simp at h2
    have hsec : ∀ pats : List String, (∀ p ∈ pats, p ∈ recognizedPats) →
        extractSection md pats = "" := by
      intro pats hsub
      unfold extractSection
      rw [sectionLines_nil pats _ hsub hlines]
      rfl
    have hA := hsec ["人物档案", "基本信息"] (by decide)
    have hB := hsec ["人生历程", "重要地点"] (by decide)
    have hC := hsec ["生平时间线"] (by decide)
    simp [parseMarkdown, h0, hA, hB, hC, emptyParse]

/-- Witness for C2 at a concrete input with no recognized level-2 header
(a level-3 人物档案 header does not count). -/
theorem parse_markdown_no_sections_witness :
    noRecognizedHeader "你好，世界\n# 标题\n### 人物档案" = true ∧
    parseMarkdown "你好，世界\n# 标题\n### 人物档案" = emptyParse :=
  ⟨by decide, parse_markdown_no_sections _ (by decide)⟩

/-- C3: the extractor emits exactly one record per level-3 header line of the
location section — in particular the record still open when the section ends
is flushed — and the concrete 3-header/no-trailing-header section yields
exactly 3 records. -/
theorem parse_locations_flush_count :
    (∀ md : String, (parseMarkdown md).locations.length =
      (splitLines (extractSection md ["人生历程", "重要地点"]).data).countP
        (fun l => (h3Name l).isSome)) ∧
    (parseMarkdown "## 人生历程\n### 长安\n### 洛阳\n### 江陵").locations.length = 3 := by
  constructor
  · intro md
    by_cases h0 : md = ""
    · subst h0; decide
    · by_cases hs : extractSection md ["人生历程", "重要地点"] = ""
      · rw [hs]
        have hr : ((splitLines ("" : String).data).countP
            (fun l => (h3Name l).isSome)) = 0 := by decide
        rw [hr]
        simp [parseMarkdown, h0, hs]
      · simp [parseMarkdown, h0, hs]
        rw [locScan_length]
        simp
  · decide

/-- C4: the 朝代 alternative of the era key is dead code — the guard
`line.includes("**时代**")` fails on a 朝代 line even though the extractField
vocabulary 时代|朝代 matches it, so `person.era` stays absent; a 时代 line
does set it. -/
theorem era_guard_requires_shidai :
    (parseMarkdown "## 人物档案\n- **朝代**：唐朝").person.era = none ∧
    extractField "- **朝代**：唐朝".data ["时代", "朝代"] = some "唐朝" ∧
    (parseMarkdown "## 人物档案\n- **时代**：唐").person.era = some "唐" :=
  ⟨by decide, by decide, by decide⟩

/-- C10: an empty (JS-falsy) query makes the resolver return null at once:
the state is unchanged (neither cache layer is written) and no network call
is issued. -/
theorem geocode_empty_query (fetch : String → FetchOutcome) (st : GeoState) :
    geocodeCity fetch "" st = (none, st, []) := by
  simp [geocodeCity]

/-- C1: the orchestrator loop from a cold cache equals an order-preserving
filterMap of the per-record policy (resolve the normalized query, retry with
the bare name only when it differs, drop the record when both fail), and on
the concrete two-record biography with exactly one resolvable record it
yields exactly one resolved location. -/
theorem pipeline_order_and_retry :
    (∀ (fetch : String → FetchOutcome) (locs : List LocationRecord),
      (processLocations fetch locs initGeoState).1 =
        locs.filterMap (pureResolveRecord (oracleOf fetch))) ∧
    (parseMarkdown demoBio).locations.length = 2 ∧
    (processLocations demoFetch (parseMarkdown demoBio).locations initGeoState).1 =
      [⟨⟨"长安", LocType.birth, "", "", "", [], none⟩,
        JSNum.fin 343 10, JSNum.fin 1089 10⟩] := by
  refine ⟨?_, by decide, by decide⟩
  intro fetch locs
  exact processLocations_eq_filterMap fetch locs initGeoState (consistent_init fetch)

/-- C5 (amended): the normalizer prefers `locationDesc` (falling back to
`name` when absent or empty), substitutes the run matched after the 今
marker, strips parenthesized content and trims; 金陵（今南京） yields 南京;
an already-trimmed input with no marker and no opening parenthesis is
returned unchanged; when stripping leaves nothing the plain `name` is
returned. -/
theorem normalize_query_rules :
    (normalizeQuery ⟨"金陵", LocType.normal, "", "", "", [], some "金陵（今南京）"⟩ =
      "南京") ∧
    (∀ loc : LocationRecord,
      listContains (queryBase loc).data ['今'] = false →
      (queryBase loc).data.all (fun c => !isOpenParen c) = true →
      trimChars (queryBase loc).data = (queryBase loc).data →
      ¬ queryBase loc = "" →
      normalizeQuery loc = queryBase loc) ∧
    (∀ loc : LocationRecord,
      trimChars (stripParens (jinSubst (queryBase loc).data)) = [] →
      normalizeQuery loc = loc.name) := by
  refine ⟨by decide, ?_, ?_⟩
  · intro loc h1 h2 h3 h4
    have hj : jinSubst (queryBase loc).data = (queryBase loc).data := by
      simp [jinSubst, h1]
    have hp := stripParens_id (queryBase loc).data h2
    have hne : (queryBase loc).data ≠ [] := by
      intro hc
      apply h4
      have he : queryBase loc = String.mk (queryBase loc).data := rfl
      rw [he, hc]
    unfold normalizeQuery
    rw [hj, hp, h3]
    cases hd : (queryBase loc).data with
    | nil => exact absurd hd hne
    | cons a as =>
      simp only [List.isEmpty_cons, Bool.false_eq_true, if_false]
      rw [← hd]
  · intro loc h
    unfold normalizeQuery
    rw [h]
    rfl

/-- Counterexample to C5 as stated: a base string with no modern-name marker
and no parentheses but with surrounding whitespace is not returned
unchanged — the normalizer trims it. -/
theorem normalize_query_not_unchanged :
    normalizeQuery ⟨"金陵", LocType.normal, "", "", "", [], some " 金陵 "⟩ = "金陵" ∧
    listContains (" 金陵 " : String).data ['今'] = false ∧
    (" 金陵 " : String).data.all (fun c => !isOpenParen c) = true ∧
    ¬ ("金陵" : String) = " 金陵 " :=
  ⟨by decide, by decide, by decide, by decide⟩

/-- Witness for C5: the no-marker no-parenthesis branch at 西安, and the
empty-after-stripping fallback at a record whose locationDesc is （）. -/
theorem normalize_query_rules_witness :
    normalizeQuery ⟨"西安", LocType.normal, "", "", "", [], none⟩ = "西安" ∧
    normalizeQuery ⟨"空", LocType.normal, "", "", "", [], some "（）"⟩ = "空" :=
  ⟨normalize_query_rules.2.1 _ (by decide) (by decide) (by decide) (by decide),
   normalize_query_rules.2.2 _ (by decide)⟩

/-- C8 (amended): every emitted record's name/type pair is produced by
`classifyHeader` on some raw header text, and the type is `normal` unless
that header text contains the birth or death marker; the name, however, can
be empty (see the counterexample). -/
theorem location_record_header_provenance :
    ∀ (md : String) (r : LocationRecord), r ∈ (parseMarkdown md).locations →
      ∃ raw : String,
        r.name = (classifyHeader raw).1 ∧ r.type = (classifyHeader raw).2 ∧
        (listContains raw.data "出生地".data = false →
          listContains raw.data "去世地".data = false →
          r.type = LocType.normal) := by
  intro md r hr
  by_cases h0 : md = ""
  · rw [h0] at hr
    simp [parseMarkdown, emptyParse] at hr
  · by_cases hs : extractSection md ["人生历程", "重要地点"] = ""
    · simp [parseMarkdown, h0, hs] at hr
    · have hmem : r ∈ locScan
          (splitLines (extractSection md ["人生历程", "重要地点"]).data) none [] := by
        simpa [parseMarkdown, h0, hs] using hr
      obtain ⟨raw, h1, h2⟩ := locScan_from_header _ none []
        (fun x hx => absurd hx (List.not_mem_nil x))
        (fun x hx => Option.noConfusion hx) r hmem
      refine ⟨raw, h1, h2, fun hb hd => ?_⟩
      rw [h2]
      exact classifyHeader_no_marker_normal raw hb hd

/-- Counterexample to C8 as stated: a header consisting solely of the birth
marker produces a record whose name is empty. -/
theorem location_record_with_empty_name :
    ∃ r ∈ (parseMarkdown "## 人生历程\n### 出生地：").locations, r.name = "" :=
  ⟨⟨"", LocType.birth, "", "", "", [], none⟩, by decide, rfl⟩

/-- Witness for C8 at the first record of the demo biography. -/
theorem location_record_header_provenance_witness :
    ∃ raw : String,
      (⟨"长安", LocType.birth, "", "", "", [], none⟩ : LocationRecord).name =
        (classifyHeader raw).1 ∧
      (⟨"长安", LocType.birth, "", "", "", [], none⟩ : LocationRecord).type =
        (classifyHeader raw).2 ∧
      (listContains raw.data "出生地".data = false →
        listContains raw.data "去世地".data = false →
        (⟨"长安", LocType.birth, "", "", "", [], none⟩ : LocationRecord).type =
          LocType.normal) :=
  location_record_header_provenance demoBio _ (by decide)

theorem geocodeCity_mem_after_some (fetch : String → FetchOutcome)
    (name : String) (st : GeoState) (c : Coord) (h0 : ¬ name = "")
    (h : (geocodeCity fetch name st).1 = some c) :
    alookup (geocodeCity fetch name st).2.1.mem name = some c := by
  cases hm : alookup st.mem name with
  | some c0 =>
    simp [geocodeCity, h0, hm] at h ⊢
    exact h
  | none =>
    have onFetch : ∀ st' : GeoState,
        (fetchPath fetch name st').1 = some c →
        alookup (fetchPath fetch name st').2.1.mem name = some c := by
      intro st' hfp
      cases hf : fetch name with
      | ok results =>
        cases results with
        | nil => rw [fetchPath, hf] at hfp; cases hfp
        | cons r rs =>
          rw [fetchPath, hf] at hfp ⊢
          simp only [Option.some.injEq] at hfp
          simp [alookup_aset, hfp]
      | netError => rw [fetchPath, hf] at hfp; cases hfp
      | badStatus => rw [fetchPath, hf] at hfp; cases hfp
      | jsonError => rw [fetchPath, hf] at hfp; cases hfp
    cases hs : alookup st.store (mkKey name) with
    | some oc =>
      cases oc with
      | some c0 =>
        simp [geocodeCity, h0, hm, hs] at h ⊢
        rw [alookup_aset]
        simp [h]
      | none =>
        have he : geocodeCity fetch name st =
            fetchPath fetch name ⟨st.mem, aremove st.store (mkKey name)⟩ := by
          simp [geocodeCity, h0, hm, hs]
        rw [he] at h ⊢
        exact onFetch _ h
    | none =>
      have he : geocodeCity fetch name st = fetchPath fetch name st := by
        simp [geocodeCity, h0, hm, hs]
      rw [he] at h ⊢
      exact onFetch _ h

/-- C6 (amended): once a call returns a coordinate, the immediately
following call for the same query is served from the in-memory cache — same
coordinate, unchanged state, no network call; and a query already present in
the memory cache is never re-queried.  (The claim's unconditional
at-most-one-fetch bound fails when resolution fails: see the
counterexample.) -/
theorem geocode_memoized_after_success :
    (∀ (fetch : String → FetchOutcome) (name : String) (st : GeoState) (c : Coord),
      (geocodeCity fetch name st).1 = some c →
      geocodeCity fetch name (geocodeCity fetch name st).2.1 =
        (some c, (geocodeCity fetch name st).2.1, [])) ∧
    (∀ (fetch : String → FetchOutcome) (name : String) (st : GeoState) (c : Coord),
      ¬ name = "" → alookup st.mem name = some c →
      geocodeCity fetch name st = (some c, st, [])) := by
  constructor
  · intro fetch name st c h
    by_cases h0 : name = ""
    · rw [h0] at h
      simp [geocodeCity] at h
    · have hmem := geocodeCity_mem_after_some fetch name st c h0 h
      set st1 := (geocodeCity fetch name st).2.1 with hst1
      simp [geocodeCity, h0, hmem]
  · intro fetch name st c h0 hm
    simp [geocodeCity, h0, hm]

/-- Counterexample to C6 as stated: when the provider fails, nothing is
cached, so two consecutive calls for the same query issue two network
calls, not at most one. -/
theorem geocode_double_call_issues_two_fetches :
    ((geocodeCity (fun _ => FetchOutcome.netError) "西安" initGeoState).2.2 ++
      (geocodeCity (fun _ => FetchOutcome.netError) "西安"
        (geocodeCity (fun _ => FetchOutcome.netError) "西安" initGeoState).2.1).2.2).length
      = 2 := by decide

/-- Witness for C6: a successful first call for 西安 followed by a cache-hit
second call, and a direct memory-cache hit for 洛阳. -/
theorem geocode_memoized_after_success_witness :
    geocodeCity (fun _ => FetchOutcome.ok [⟨"34.3", "108.9"⟩]) "西安"
      ((geocodeCity (fun _ => FetchOutcome.ok [⟨"34.3", "108.9"⟩]) "西安"
        initGeoState).2.1) =
      (some ⟨JSNum.fin 343 10, JSNum.fin 1089 10⟩,
        (geocodeCity (fun _ => FetchOutcome.ok [⟨"34.3", "108.9"⟩]) "西安"
          initGeoState).2.1, []) ∧
    geocodeCity (fun _ => FetchOutcome.netError) "洛阳"
      ⟨[("洛阳", ⟨JSNum.fin 3462 100, JSNum.fin 11262 100⟩)], []⟩ =
      (some ⟨JSNum.fin 3462 100, JSNum.fin 11262 100⟩,
        ⟨[("洛阳", ⟨JSNum.fin 3462 100, JSNum.fin 11262 100⟩)], []⟩, []) :=
  ⟨geocode_memoized_after_success.1 _ "西安" initGeoState _ (by decide),
   geocode_memoized_after_success.2 _ "洛阳" _ _ (by decide) (by decide)⟩

/-- C7: on a cache miss, a thrown fetch, a non-ok status, a JSON error and an
empty result array each make the resolver return null with no cache entry
written; a malformed durable entry is treated as a miss (the lookup proceeds
as a fresh one) and is purged from the store.  Totality of `geocodeCity` is
by construction. -/
theorem geocode_failure_semantics :
    (∀ (fetch : String → FetchOutcome) (name : String) (st : GeoState),
      ¬ name = "" → alookup st.mem name = none →
      alookup st.store (mkKey name) = none → isFailOutcome (fetch name) = true →
      geocodeCity fetch name st = (none, st, [name])) ∧
    (∀ (fetch : String → FetchOutcome) (name : String) (st : GeoState),
      ¬ name = "" → alookup st.mem name = none →
      alookup st.store (mkKey name) = none → fetch name = FetchOutcome.ok [] →
      geocodeCity fetch name st = (none, st, [name])) ∧
    (∀ (fetch : String → FetchOutcome) (name : String) (st : GeoState),
      ¬ name = "" → alookup st.mem name = none →
      alookup st.store (mkKey name) = some none →
      (geocodeCity fetch name st).1 = oracleOf fetch name ∧
      (oracleOf fetch name = none →
        alookup (geocodeCity fetch name st).2.1.store (mkKey name) = none)) := by
  refine ⟨?_, ?_, ?_⟩
  · intro fetch name st h0 hm hs hfail
    cases hf : fetch name with
    | ok results => rw [hf] at hfail; simp [isFailOutcome] at hfail
    | netError => simp [geocodeCity, h0, hm, hs, fetchPath, hf]
    | badStatus => simp [geocodeCity, h0, hm, hs, fetchPath, hf]
    | jsonError => simp [geocodeCity, h0, hm, hs, fetchPath, hf]
  · intro fetch name st h0 hm hs hempty
    simp [geocodeCity, h0, hm, hs, fetchPath, hempty]
  · intro fetch name st h0 hm hs
    have he : geocodeCity fetch name st =
        fetchPath fetch name ⟨st.mem, aremove st.store (mkKey name)⟩ := by
      simp [geocodeCity, h0, hm, hs]
    constructor
    · rw [he]
      cases hf : fetch name with
      | ok results =>
        cases results with
        | nil => simp [fetchPath, oracleOf, hf, h0]
        | cons r rs => simp [fetchPath, oracleOf, hf, h0]
      | netError => simp [fetchPath, oracleOf, hf, h0]
      | badStatus => simp [fetchPath, oracleOf, hf, h0]
      | jsonError => simp [fetchPath, oracleOf, hf, h0]
    · intro ho
      rw [he]
      cases hf : fetch name with
      | ok results =>
        cases results with
        | nil =>
          simp only [fetchPath, hf]
          rw [alookup_aremove]
          simp
        | cons r rs => simp [oracleOf, h0, hf] at ho
      | netError =>
        simp only [fetchPath, hf]
        rw [alookup_aremove]
        simp
      | badStatus =>
        simp only [fetchPath, hf]
        rw [alookup_aremove]
        simp
      | jsonError =>
        simp only [fetchPath, hf]
        rw [alookup_aremove]
        simp

/-- Witness for C7: a non-ok status, an empty result array, and a malformed
durable entry, each at a concrete cold state. -/
theorem geocode_failure_semantics_witness :
    geocodeCity (fun _ => FetchOutcome.badStatus) "西安" initGeoState =
      (none, initGeoState, ["西安"]) ∧
    geocodeCity (fun _ => FetchOutcome.ok []) "西安" initGeoState =
      (none, initGeoState, ["西安"]) ∧
    ((geocodeCity (fun _ => FetchOutcome.ok []) "西安"
        ⟨[], [("geocode_西安", none)]⟩).1 =
      oracleOf (fun _ => FetchOutcome.ok []) "西安" ∧
      (oracleOf (fun _ => FetchOutcome.ok []) "西安" = none →
        alookup (geocodeCity (fun _ => FetchOutcome.ok []) "西安"
          ⟨[], [("geocode_西安", none)]⟩).2.1.store (mkKey "西安") = none)) :=
  ⟨geocode_failure_semantics.1 _ _ _ (by decide) (by decide) (by decide) (by decide),
   geocode_failure_semantics.2.1 _ _ _ (by decide) (by decide) (by decide) rfl,
   geocode_failure_semantics.2.2 _ _ _ (by decide) (by decide) (by decide)⟩

/-- C9 (amended): a resolver coordinate is exactly the parseFloat image of
the provider's first-result strings — finite and within geographic bounds
whenever the parsed provider values are (the code itself performs no bounds
validation; see the counterexample) — and every coordinate in the
orchestrator's output comes from a resolver call, never synthesized
elsewhere. -/
theorem geocode_coordinate_from_provider :
    (∀ (fetch : String → FetchOutcome) (name : String) (st : GeoState)
        (r : RawResult) (rs : List RawResult),
      ¬ name = "" → alookup st.mem name = none →
      (alookup st.store (mkKey name) = none ∨
        alookup st.store (mkKey name) = some none) →
      fetch name = FetchOutcome.ok (r :: rs) →
      (geocodeCity fetch name st).1 =
        some ⟨jsParseFloat r.lat, jsParseFloat r.lon⟩ ∧
      ((jsParseFloat r.lat).withinRange 90 = true →
        (jsParseFloat r.lon).withinRange 180 = true →
        ∀ c, (geocodeCity fetch name st).1 = some c →
          coordWithinBounds c = true)) ∧
    (∀ (fetch : String → FetchOutcome) (locs : List LocationRecord)
        (r : ResolvedLocation),
      r ∈ (processLocations fetch locs initGeoState).1 →
      ∃ q, oracleOf fetch q = some ⟨r.lat, r.lng⟩) := by
  constructor
  · intro fetch name st r rs h0 hm hst hf
    have hres : (geocodeCity fetch name st).1 =
        some ⟨jsParseFloat r.lat, jsParseFloat r.lon⟩ := by
      cases hst with
      | inl h => simp [geocodeCity, h0, hm, h, fetchPath, hf]
      | inr h => simp [geocodeCity, h0, hm, h, fetchPath, hf]
    refine ⟨hres, fun hla hlo c hc => ?_⟩
    rw [hres] at hc
    simp only [Option.some.injEq] at hc
    rw [← hc]
    simp [coordWithinBounds, hla, hlo]
  · intro fetch locs r hr
    rw [processLocations_eq_filterMap fetch locs initGeoState
      (consistent_init fetch)] at hr
    rw [List.mem_filterMap] at hr
    obtain ⟨loc, hloc, hres⟩ := hr
    exact pureResolveRecord_coord _ loc r hres

/-- Counterexample to C9 as stated: the resolver happily returns the
out-of-bounds coordinate (95, 200) when the provider supplies it — no
validation is performed. -/
theorem geocode_returns_out_of_bounds :
    (geocodeCity (fun _ => FetchOutcome.ok [⟨"95", "200"⟩]) "测试"
      initGeoState).1 = some ⟨JSNum.fin 95 1, JSNum.fin 200 1⟩ ∧
    coordWithinBounds ⟨JSNum.fin 95 1, JSNum.fin 200 1⟩ = false :=
  ⟨by decide, by decide⟩

/-- Witness for C9: an in-bounds provider response at a cold state, and the
provenance of the single resolved demo location. -/
theorem geocode_coordinate_from_provider_witness :
    ((geocodeCity (fun _ => FetchOutcome.ok [⟨"34.3", "108.9"⟩]) "西安"
        initGeoState).1 = some ⟨jsParseFloat "34.3", jsParseFloat "108.9"⟩ ∧
      ((jsParseFloat "34.3").withinRange 90 = true →
        (jsParseFloat "108.9").withinRange 180 = true →
        ∀ c, (geocodeCity (fun _ => FetchOutcome.ok [⟨"34.3", "108.9"⟩]) "西安"
          initGeoState).1 = some c → coordWithinBounds c = true)) ∧
    (∃ q, oracleOf demoFetch q =
      some ⟨JSNum.fin 343 10, JSNum.fin 1089 10⟩) :=
  ⟨geocode_coordinate_from_provider.1 (fun _ => FetchOutcome.ok [⟨"34.3", "108.9"⟩])
      "西安" initGeoState ⟨"34.3", "108.9"⟩ [] (by decide) (by decide)
      (Or.inl (by decide)) rfl,
   geocode_coordinate_from_provider.2 demoFetch (parseMarkdown demoBio).locations
      ⟨⟨"长安", LocType.birth, "", "", "", [], none⟩,
        JSNum.fin 343 10, JSNum.fin 1089 10⟩ (by decide)⟩
